import Mathlib

/-!
Shallow embedding of `app/question_manager.py` (class `QuestionManager`).

Timestamps (`time.time()` values) are modelled as rationals and passed in
explicitly as `now`.  SQLite `NULL` in `submissions.start_time` is
`Option.none`; the stored `submitted` integer is modelled by its Python
truthiness as a `Bool`.  The submissions, metrics and session tables are
association lists of rows; `INSERT OR REPLACE` removes the conflicting
primary-key row, `UPDATE ... WHERE username = ?` rewrites every matching
row.  The filesystem of uploaded submission files is a pair of predicates
(directory existence, per-question file existence).
-/

/-- Per-question timer table from `QuestionManager.__init__` (`self.timers`). -/
def timersList : List (String × Int) :=
  [("question1", 20), ("question2", 900), ("question3", 1200),
   ("question4", 900), ("question5", 600)]

/-- Question names, in the timer table's insertion order (`self.timers.keys()`). -/
def questions : List String := timersList.map (fun p => p.1)

/-- Total test time: `sum(self.timers.values())`. -/
def total_time : Int := (timersList.map (fun p => p.2)).sum

/-- A row of the `submissions` table. -/
structure SubRow where
  username : String
  question : String
  submitted : Bool
  start_time : Option ℚ
deriving DecidableEq

/-- A row of the `student_metrics` table. -/
structure MetricRow where
  username : String
  leave_count : Int
  last_leave_ts : ℚ
deriving DecidableEq

/-- A row of the `test_sessions` table. -/
structure SessionRow where
  username : String
  start_time : ℚ
deriving DecidableEq

/-- The persistent SQLite state of a `QuestionManager`. -/
structure DB where
  subs : List SubRow
  metrics : List MetricRow
  sessions : List SessionRow
deriving DecidableEq

/-- The submissions-directory filesystem: which per-user directories exist and
which `<question>.py` files exist inside them. -/
structure FS where
  dirExists : String → Bool
  fileExists : String → String → Bool

/-- The empty database (all three tables empty). -/
def emptyDB : DB := ⟨[], [], []⟩

/-- First `submissions` row matching primary key (username, question):
the result of `SELECT submitted, start_time FROM submissions WHERE ...`. -/
def findSub : List SubRow → String → String → Option (Bool × Option ℚ)
  | [], _, _ => none
  | r :: rest, u, q =>
    if r.username = u ∧ r.question = q then some (r.submitted, r.start_time)
    else findSub rest u q

/-- Rows left after deleting the (username, question) primary key. -/
def removeSub : List SubRow → String → String → List SubRow
  | [], _, _ => []
  | r :: rest, u, q =>
    if r.username = u ∧ r.question = q then removeSub rest u q
    else r :: removeSub rest u q

/-- `INSERT OR REPLACE INTO submissions`: drop any row with the same primary
key and insert the new row. -/
def replaceSub (subs : List SubRow) (u q : String) (s : Bool) (t : Option ℚ) :
    List SubRow :=
  ⟨u, q, s, t⟩ :: removeSub subs u q

/-- `SELECT start_time FROM test_sessions WHERE username = ?`. -/
def findSession : List SessionRow → String → Option ℚ
  | [], _ => none
  | r :: rest, u => if r.username = u then some r.start_time else findSession rest u

/-- `SELECT leave_count, last_leave_ts FROM student_metrics WHERE username = ?`. -/
def findMetric : List MetricRow → String → Option (Int × ℚ)
  | [], _ => none
  | r :: rest, u =>
    if r.username = u then some (r.leave_count, r.last_leave_ts) else findMetric rest u

/-- `UPDATE student_metrics SET ... WHERE username = ?`: rewrite the
(count, timestamp) payload of every row of that user. -/
def updMetrics (ms : List MetricRow) (u : String) (f : Int × ℚ → Int × ℚ) :
    List MetricRow :=
  ms.map (fun r =>
    if r.username = u then
      ⟨r.username, (f (r.leave_count, r.last_leave_ts)).1,
        (f (r.leave_count, r.last_leave_ts)).2⟩
    else r)

/-- `QuestionManager.start_global_timer`: insert `(username, now)` into
`test_sessions` only when no row for the user exists. -/
def start_global_timer (db : DB) (now : ℚ) (u : String) : DB :=
  match findSession db.sessions u with
  | some _ => db
  | none => { db with sessions := db.sessions ++ [⟨u, now⟩] }

/-- `QuestionManager.has_global_started`: `bool(row and row[0])`. -/
def has_global_started (db : DB) (u : String) : Bool :=
  match findSession db.sessions u with
  | some t => decide (t ≠ 0)
  | none => false

/-- Python `int()` on a real number: truncation toward zero. -/
def truncInt (x : ℚ) : Int := if x < 0 then ⌈x⌉ else ⌊x⌋

/-- `QuestionManager.get_global_time_left`: remaining whole seconds for the
user's single global timer. -/
def get_global_time_left (db : DB) (now : ℚ) (u : String) : Int :=
  match findSession db.sessions u with
  | some t =>
    if t = 0 then total_time
    else max 0 (truncInt ((total_time : ℚ) - (now - t)))
  | none => total_time

/-- `QuestionManager.has_submitted`: truthiness of the stored flag. -/
def has_submitted (db : DB) (u q : String) : Bool :=
  match findSub db.subs u q with
  | some (s, _) => s
  | none => false

/-- `QuestionManager.can_access`: time remains and the question is not yet
submitted. -/
def can_access (db : DB) (now : ℚ) (u q : String) : Bool :=
  let left := get_global_time_left db now u
  let submitted : Bool :=
    match findSub db.subs u q with
    | some (s, _) => s
    | none => false
  decide (0 < left) && !submitted

/-- `QuestionManager.submit_answer` (success path): move the uploaded file
into the user's directory and upsert the row with `submitted = 1`,
`start_time = COALESCE((SELECT start_time FROM submissions ...), now)`. -/
def submit_answer (db : DB) (fs : FS) (now : ℚ) (u q : String) : DB × FS :=
  let fsNew : FS :=
    { dirExists := fun d => if d = u then true else fs.dirExists d
      fileExists := fun d f => if d = u ∧ f = q then true else fs.fileExists d f }
  let st : ℚ :=
    match findSub db.subs u q with
    | some (_, some t) => t
    | _ => now
  ({ db with subs := replaceSub db.subs u q true (some st) }, fsNew)

/-- Session fallback used by `mark_submission_verified`:
`row[0] if row and row[0] else time.time()`. -/
def session_fallback (db : DB) (now : ℚ) (u : String) : ℚ :=
  match findSession db.sessions u with
  | some s => if s = 0 then now else s
  | none => now

/-- The `start_ts` chosen by `mark_submission_verified`: the existing row's
truthy start time, else the session fallback. -/
def mark_start_ts (db : DB) (now : ℚ) (u q : String) : ℚ :=
  match findSub db.subs u q with
  | some (_, some t) => if t = 0 then session_fallback db now u else t
  | _ => session_fallback db now u

/-- `QuestionManager.mark_submission_verified`: upsert the row with
`submitted = 1` and the chosen `start_ts`. -/
def mark_submission_verified (db : DB) (now : ℚ) (u q : String) : DB :=
  { db with subs := replaceSub db.subs u q true (some (mark_start_ts db now u q)) }

/-- `QuestionManager.reset`: `DELETE FROM submissions`. -/
def reset (db : DB) : DB := { db with subs := [] }

/-- `QuestionManager.increment_leave_count`: ensure the metrics row exists,
then either count-and-stamp (gap of at least 3 seconds) or only restamp. -/
def increment_leave_count (db : DB) (now : ℚ) (u : String) : DB :=
  let ms1 : List MetricRow :=
    match findMetric db.metrics u with
    | some _ => db.metrics
    | none => db.metrics ++ [⟨u, 0, 0⟩]
  let last : ℚ :=
    match findMetric ms1 u with
    | some (_, t) => t
    | none => 0
  if 3 ≤ now - last then
    { db with metrics := updMetrics ms1 u (fun p => (p.1 + 1, now)) }
  else
    { db with metrics := updMetrics ms1 u (fun p => (p.1, now)) }

/-- Stored leave count as the reporting reads it (0 when the row is absent). -/
def readCount (db : DB) (u : String) : Int :=
  ((findMetric db.metrics u).map (fun p => p.1)).getD 0

/-- Stored last-leave timestamp as `increment_leave_count` reads it
(0 when absent). -/
def readLastTs (db : DB) (u : String) : ℚ :=
  ((findMetric db.metrics u).map (fun p => p.2)).getD 0

/-- Primary-key invariant of the `submissions` table: (username, question)
pairs are distinct. -/
def SubsNodup (subs : List SubRow) : Prop :=
  (subs.map (fun r => (r.username, r.question))).Nodup

instance (subs : List SubRow) : Decidable (SubsNodup subs) := by
  unfold SubsNodup; infer_instance

/-! ### String helpers modelling the Python string methods used by
`verify_key` (ASCII fragment). -/

/-- Python whitespace characters recognised by `str.strip()` (ASCII). -/
def pySpace (c : Char) : Bool :=
  c == ' ' || c == '\t' || c == '\n' || c == '\r' || c == '\x0b' || c == '\x0c'

/-- `str.strip()`: drop leading and trailing whitespace. -/
def pyStrip (s : String) : String :=
  String.mk (((s.data.dropWhile pySpace).reverse.dropWhile pySpace).reverse)

/-- `str.lower()` (ASCII letters). -/
def pyLower (s : String) : String :=
  String.mk (s.data.map Char.toLower)

/-- Split a character list at newline characters. -/
def splitNl : List Char → List Char → List String
  | [], acc => [String.mk acc.reverse]
  | c :: rest, acc =>
    if c = '\n' then String.mk acc.reverse :: splitNl rest []
    else splitNl rest (c :: acc)

/-- `str.splitlines()` for newline-separated text: like splitting on the
newline character, but without a trailing empty segment. -/
def pySplitlines (s : String) : List String :=
  let parts := splitNl s.data []
  if parts.getLast? = some "" then parts.dropLast else parts

/-- Characters after the first colon: `line.split(colon, 1)[1]` (empty when
the line has no colon, a case `verify_key` never reaches). -/
def afterColonChars : List Char → List Char
  | [] => []
  | c :: rest => if c = ':' then rest else afterColonChars rest

/-- String form of `afterColonChars`. -/
def afterFirstColon (s : String) : String := String.mk (afterColonChars s.data)

/-- Whether the second list begins with the first. -/
def leadMatch : List Char → List Char → Bool
  | [], _ => true
  | _ :: _, [] => false
  | a :: as, b :: bs => a == b && leadMatch as bs

/-- `s.startswith(p)`. -/
def pyStartsWith (s p : String) : Bool := leadMatch p.data s.data

/-- Whether a line is an `Answer:` line, as `verify_key` tests it. -/
def isAnswerLine (line : String) : Bool :=
  pyStartsWith (pyLower (pyStrip line)) "answer:"

/-- The per-question loop body of `verify_key`: return the comparison at the
first `Answer:` line, `False` when none is found. -/
def checkAnswerLines : List String → String → Bool
  | [], _ => false
  | line :: rest, key =>
    if isAnswerLine line then
      pyLower (pyStrip (afterFirstColon line)) == pyLower (pyStrip key)
    else checkAnswerLines rest key

/-- `QuestionManager.get_question_text`: the questions directory is a map
from question name to the optional content of `<name>.txt`. -/
def get_question_text (qs : String → Option String) (qname : String) :
    Option String :=
  qs qname

/-- `QuestionManager.verify_key`: compare the candidate key with the first
`Answer:` line of the question text. -/
def verify_key (qs : String → Option String) (qname key : String) : Bool :=
  match get_question_text qs qname with
  | none => false
  | some text =>
    if text = "" then false
    else checkAnswerLines (pySplitlines text) key

/-- The raw text after `Answer:` on the first answer line, when one exists:
the expected answer `verify_key` compares against. -/
def findAnswerLine : List String → Option String
  | [] => none
  | line :: rest =>
    if isAnswerLine line then some (afterFirstColon line)
    else findAnswerLine rest

/-- The registered expected answer of a question: extracted from the same
text and line scan that `verify_key` performs. -/
def registeredAnswer (qs : String → Option String) (qname : String) :
    Option String :=
  match get_question_text qs qname with
  | none => none
  | some text =>
    if text = "" then none
    else findAnswerLine (pySplitlines text)

/-! ### Python dictionaries as association lists, for
`get_all_submissions`. -/

/-- `d[k] = v` on a Python dict: update in place when the key exists,
append otherwise. -/
def dictInsert {α : Type} (k : String) (v : α) (d : List (String × α)) :
    List (String × α) :=
  if d.any (fun p => p.1 = k) then
    d.map (fun p => if p.1 = k then (k, v) else p)
  else d ++ [(k, v)]

/-- `d.get(k)`: first entry with the key. -/
def dictGet {α : Type} : List (String × α) → String → Option α
  | [], _ => none
  | p :: rest, k => if p.1 = k then some p.2 else dictGet rest k

/-- `result[u][...] = ...`: rewrite the inner value stored under `u`. -/
def updInner {α : Type} (u : String) (f : α → α)
    (d : List (String × α)) : List (String × α) :=
  d.map (fun p => if p.1 = u then (p.1, f p.2) else p)

/-- The inner dict a user is seeded with: every question mapped to `False`. -/
def defaultInner : List (String × Bool) := questions.map (fun q => (q, false))

/-- First loop of `get_all_submissions`: seed every roster username. -/
def seedRoster (students : List String)
    (r : List (String × List (String × Bool))) :
    List (String × List (String × Bool)) :=
  students.foldl (fun acc u => dictInsert u defaultInner acc) r

/-- Second loop: add every username appearing in the submissions rows that
is not yet present. -/
def addDbUsers (rows : List SubRow)
    (r : List (String × List (String × Bool))) :
    List (String × List (String × Bool)) :=
  rows.foldl
    (fun acc row =>
      if (dictGet acc row.username).isSome then acc
      else dictInsert row.username defaultInner acc)
    r

/-- Third loop: overlay the stored submission flags. -/
def applyFlags (rows : List SubRow)
    (r : List (String × List (String × Bool))) :
    List (String × List (String × Bool)) :=
  rows.foldl
    (fun acc row => updInner row.username (dictInsert row.question row.submitted) acc)
    r

/-- The filesystem pass over one user's inner dict: when the user's
directory exists, force `True` for every question whose `.py` file exists. -/
def fileOverlayInner (fs : FS) (u : String) (d : List (String × Bool)) :
    List (String × Bool) :=
  if fs.dirExists u then
    questions.foldl (fun d q => if fs.fileExists u q then dictInsert q true d else d) d
  else d

/-- Fourth loop of `get_all_submissions`: the filesystem backup check. -/
def applyFiles (fs : FS) (r : List (String × List (String × Bool))) :
    List (String × List (String × Bool)) :=
  r.map (fun p => (p.1, fileOverlayInner fs p.1 p.2))

/-- `QuestionManager.get_all_submissions`; `students` is the roster list
read from the logins file. -/
def get_all_submissions (db : DB) (fs : FS) (students : List String) :
    List (String × List (String × Bool)) :=
  applyFiles fs (applyFlags db.subs (addDbUsers db.subs (seedRoster students [])))

/-! ### Session-table lemmas and the timer claims. -/

lemma findSession_append (l1 l2 : List SessionRow) (u : String) :
    findSession (l1 ++ l2) u =
      match findSession l1 u with
      | some t => some t
      | none => findSession l2 u := by
  induction l1 with
  | nil => simp [findSession]
  | cons r rest ih => by_cases h : r.username = u <;> simp [findSession, h, ih]

/-- C9: `reset` removes every submissions row and leaves the metrics rows and
the session rows unchanged. -/
theorem reset_clears_only_submissions (db : DB) :
    (reset db).subs = [] ∧ (reset db).metrics = db.metrics ∧
      (reset db).sessions = db.sessions :=
  ⟨rfl, rfl, rfl⟩

/-- C7, counterexample: the per-question timers sum to 3620 seconds, not
3640, so a user with no started session is given 3620 seconds. -/
theorem total_time_ne_3640 :
    total_time ≠ 3640 ∧ get_global_time_left emptyDB 0 "alice" = 3620 := by
  exact ⟨by decide, rfl⟩

/-- C7, amended: the configured total test duration is the sum of the
per-question default allotments, which is 3620 seconds in the shipped
configuration, and a user with no started session gets 3620 from
`get_global_time_left`. -/
theorem total_time_value :
    total_time = (timersList.map (fun p => p.2)).sum ∧ total_time = 3620 ∧
      ∀ (now : ℚ) (u : String), get_global_time_left emptyDB now u = 3620 :=
  ⟨rfl, by decide, fun _ _ => rfl⟩

/-- C3: `start_global_timer` records `now` only when no session row exists
for the user, an existing row makes the call a no-op, and a second start
never changes the recorded start time (first-start-wins). -/
theorem start_global_timer_first_start_wins (db : DB) (now : ℚ) (u : String) :
    (findSession db.sessions u = none →
      findSession (start_global_timer db now u).sessions u = some now) ∧
    ((∃ t, findSession db.sessions u = some t) → start_global_timer db now u = db) ∧
    (∀ now2 : ℚ,
      findSession (start_global_timer (start_global_timer db now u) now2 u).sessions u =
        findSession (start_global_timer db now u).sessions u) := by
  refine ⟨fun h => ?_, fun h => ?_, fun now2 => ?_⟩
  · simp [start_global_timer, h, findSession_append, findSession]
  · obtain ⟨t, ht⟩ := h
    simp [start_global_timer, ht]
  · have key : ∀ (d : DB) (t : ℚ), findSession d.sessions u = some t →
        start_global_timer d now2 u = d := fun d t ht => by
      simp [start_global_timer, ht]
    cases h : findSession db.sessions u with
    | some t =>
      have e1 : start_global_timer db now u = db := by simp [start_global_timer, h]
      rw [e1, key db t h]
    | none =>
      have h1 : findSession (start_global_timer db now u).sessions u = some now := by
        simp [start_global_timer, h, findSession_append, findSession]
      rw [key _ now h1]

/-- C3 witness: starting on the empty database records the start time. -/
theorem start_global_timer_first_start_wins_witness :
    findSession (start_global_timer emptyDB 5 "alice").sessions "alice" = some 5 :=
  (start_global_timer_first_start_wins emptyDB 5 "alice").1 rfl

lemma max_trunc_eq_floor_max (x : ℚ) : max 0 (truncInt x) = ⌊max 0 x⌋ := by
  unfold truncInt
  by_cases hx : x < 0
  · have h1 : ⌈x⌉ ≤ 0 := Int.ceil_le.mpr (by exact_mod_cast hx.le)
    rw [if_pos hx, max_eq_left h1, max_eq_left hx.le, Int.floor_zero]
  · push_neg at hx
    have h1 : (0 : Int) ≤ ⌊x⌋ := Int.floor_nonneg.mpr hx
    rw [if_neg (not_lt.mpr hx), max_eq_right h1, max_eq_right hx]

/-- C4: `get_global_time_left` is a non-negative integer; it is the full
configured duration when the session has not started, and otherwise
`max(0, duration - (now - start_time))` floored to an integer. -/
theorem get_global_time_left_spec (db : DB) (now : ℚ) (u : String) :
    0 ≤ get_global_time_left db now u ∧
    (has_global_started db u = false → get_global_time_left db now u = total_time) ∧
    (∀ t : ℚ, findSession db.sessions u = some t → t ≠ 0 →
      get_global_time_left db now u = ⌊max 0 ((total_time : ℚ) - (now - t))⌋) := by
  refine ⟨?_, fun h => ?_, fun t ht ht0 => ?_⟩
  · unfold get_global_time_left
    cases hs : findSession db.sessions u with
    | none => exact (by decide : (0 : Int) ≤ total_time)
    | some t =>
      show (0 : Int) ≤
        if t = 0 then total_time else max 0 (truncInt ((total_time : ℚ) - (now - t)))
      by_cases ht : t = 0
      · rw [if_pos ht]; decide
      · rw [if_neg ht]; exact le_max_left 0 _
  · unfold get_global_time_left
    cases hs : findSession db.sessions u with
    | none => rfl
    | some t =>
      have ht : t = 0 := by
        unfold has_global_started at h
        rw [hs] at h
        simpa using h
      show (if t = 0 then total_time else max 0 (truncInt ((total_time : ℚ) - (now - t))))
        = total_time
      rw [if_pos ht]
  · simp [get_global_time_left, ht, ht0, max_trunc_eq_floor_max]

/-- C4 witness: a started session with 10 elapsed seconds. -/
theorem get_global_time_left_spec_witness :
    get_global_time_left ⟨[], [], [⟨"alice", 10⟩]⟩ 20 "alice" =
      ⌊max 0 ((total_time : ℚ) - (20 - 10))⌋ :=
  (get_global_time_left_spec ⟨[], [], [⟨"alice", 10⟩]⟩ 20 "alice").2.2 10
    (by simp [findSession]) (by norm_num)

/-! ### Submissions-table lemmas and the access/upsert claims. -/

lemma findSub_removeSub {u q u2 q2 : String} (subs : List SubRow)
    (hne : ¬(u = u2 ∧ q = q2)) :
    findSub (removeSub subs u q) u2 q2 = findSub subs u2 q2 := by
  induction subs with
  | nil => rfl
  | cons r rest ih =>
    by_cases hr : r.username = u ∧ r.question = q
    · have hr2 : ¬(r.username = u2 ∧ r.question = q2) := by
        rintro ⟨h1, h2⟩
        exact hne ⟨by rw [← h1, hr.1], by rw [← h2, hr.2]⟩
      rw [removeSub, if_pos hr, ih, findSub, if_neg hr2]
    · rw [removeSub, if_neg hr, findSub, findSub, ih]

lemma findSub_replaceSub (subs : List SubRow) (u q u2 q2 : String) (s : Bool)
    (t : Option ℚ) :
    findSub (replaceSub subs u q s t) u2 q2 =
      if u = u2 ∧ q = q2 then some (s, t) else findSub subs u2 q2 := by
  by_cases h : u = u2 ∧ q = q2
  · simp [replaceSub, findSub, h]
  · rw [if_neg h]
    simp only [replaceSub, findSub]
    rw [if_neg h, findSub_removeSub subs h]

lemma findSub_mem {subs : List SubRow} {u q : String} {s : Bool} {t : Option ℚ}
    (h : findSub subs u q = some (s, t)) : (⟨u, q, s, t⟩ : SubRow) ∈ subs := by
  induction subs with
  | nil => simp [findSub] at h
  | cons r rest ih =>
    by_cases hr : r.username = u ∧ r.question = q
    · rw [findSub, if_pos hr] at h
      simp only [Option.some.injEq, Prod.mk.injEq] at h
      have h1 : r = ⟨u, q, s, t⟩ := by
        cases r
        simp_all
      rw [h1]
      exact List.mem_cons_self _ _
    · rw [findSub, if_neg hr] at h
      exact List.mem_cons_of_mem _ (ih h)

lemma mem_findSub {subs : List SubRow} {u q : String} {s : Bool} {t : Option ℚ}
    (hnd : SubsNodup subs) (h : (⟨u, q, s, t⟩ : SubRow) ∈ subs) :
    findSub subs u q = some (s, t) := by
  induction subs with
  | nil => simp at h
  | cons r rest ih =>
    rw [SubsNodup, List.map_cons, List.nodup_cons] at hnd
    rcases List.mem_cons.mp h with he | hm
    · rw [← he, findSub, if_pos ⟨rfl, rfl⟩]
    · have hkey : (u, q) ∈ rest.map (fun r => (r.username, r.question)) :=
        List.mem_map.mpr ⟨_, hm, rfl⟩
      have hr : ¬(r.username = u ∧ r.question = q) := by
        rintro ⟨h1, h2⟩
        exact hnd.1 (by rw [h1, h2]; exact hkey)
      rw [findSub, if_neg hr]
      exact ih hnd.2 hm

/-- C1: `can_access` is true exactly when global time remains and no
submissions row for the pair has its submitted flag set; in particular it is
false right after `mark_submission_verified`, whatever time remains. -/
theorem can_access_iff (db : DB) (now now2 : ℚ) (u q : String)
    (hnd : SubsNodup db.subs) :
    (can_access db now u q = true ↔
      (0 < get_global_time_left db now u ∧
        ¬∃ t : Option ℚ, (⟨u, q, true, t⟩ : SubRow) ∈ db.subs)) ∧
    can_access (mark_submission_verified db now2 u q) now u q = false := by
  constructor
  · simp only [can_access]
    cases h : findSub db.subs u q with
    | none =>
      have hne : ¬∃ t : Option ℚ, (⟨u, q, true, t⟩ : SubRow) ∈ db.subs := by
        rintro ⟨t, hm⟩
        rw [mem_findSub hnd hm] at h
        exact Option.noConfusion h
      simp [hne]
    | some p =>
      obtain ⟨s, t0⟩ := p
      cases s with
      | true =>
        have hex : ∃ t : Option ℚ, (⟨u, q, true, t⟩ : SubRow) ∈ db.subs :=
          ⟨t0, findSub_mem h⟩
        simp [hex]
      | false =>
        have hne : ¬∃ t : Option ℚ, (⟨u, q, true, t⟩ : SubRow) ∈ db.subs := by
          rintro ⟨t, hm⟩
          rw [mem_findSub hnd hm] at h
          simp at h
        simp [hne]
  · simp [can_access, mark_submission_verified, findSub_replaceSub]

/-- C1 witness: after verifying question1 for alice, access to it is
refused although time remains. -/
theorem can_access_iff_witness :
    can_access (mark_submission_verified ⟨[], [], [⟨"alice", 2⟩]⟩ 3 "alice" "question1")
      4 "alice" "question1" = false :=
  (can_access_iff ⟨[], [], [⟨"alice", 2⟩]⟩ 4 3 "alice" "question1" (by decide)).2

/-- C2, counterexample: with a session started at 100 and no existing
submissions row, `submit_answer` at time 200 initialises `start_time` to the
current time 200, not to the session's start time, contradicting the claim
that the session start is used when available. -/
theorem submit_answer_ignores_session_start :
    findSession (⟨[], [], [⟨"alice", 100⟩]⟩ : DB).sessions "alice" = some 100 ∧
    findSub ((submit_answer ⟨[], [], [⟨"alice", 100⟩]⟩
        ⟨fun _ => false, fun _ _ => false⟩ 200 "alice" "question1").1).subs
      "alice" "question1" = some (true, some 200) ∧
    (200 : ℚ) ≠ 100 := by
  refine ⟨by decide, by decide, by norm_num⟩

lemma findSub_submit (db : DB) (fs : FS) (now : ℚ) (u q : String) :
    ∃ x : ℚ, findSub (submit_answer db fs now u q).1.subs u q = some (true, some x) := by
  simp [submit_answer, findSub_replaceSub]

lemma mark_start_ts_ne_zero (db : DB) (now : ℚ) (u q : String) (h : now ≠ 0) :
    mark_start_ts db now u q ≠ 0 := by
  have hfb : session_fallback db now u ≠ 0 := by
    unfold session_fallback
    cases hs : findSession db.sessions u with
    | none => exact h
    | some sv =>
      by_cases hv : sv = 0
      · simpa [hv] using h
      · simp [hv]
  unfold mark_start_ts
  cases hf : findSub db.subs u q with
  | none => exact hfb
  | some p =>
    obtain ⟨s, t⟩ := p
    cases t with
    | none => exact hfb
    | some tv =>
      by_cases hv : tv = 0
      · simpa [hv] using hfb
      · simp [hv]

lemma mark_start_ts_existing {db : DB} {now : ℚ} {u q : String} {s : Bool}
    {t : ℚ} (hf : findSub db.subs u q = some (s, some t)) (ht : t ≠ 0) :
    mark_start_ts db now u q = t := by
  simp [mark_start_ts, hf, ht]

/-- C2, amended: both submission-recording calls are idempotent upserts that
set the submitted flag; `mark_submission_verified` takes `start_time` from
the existing row when non-zero, else the session start when non-zero, else
the current time; `submit_answer` keeps an existing non-NULL `start_time`
and otherwise uses the current time without consulting the session; repeated
calls leave `start_time` unchanged (for `mark_submission_verified` under
non-zero timestamps). -/
theorem submission_upsert_amended (db : DB) (fs : FS) (now now2 : ℚ)
    (u q : String) :
    has_submitted (submit_answer db fs now u q).1 u q = true ∧
    has_submitted (mark_submission_verified db now u q) u q = true ∧
    (∀ (s : Bool) (t : ℚ), findSub db.subs u q = some (s, some t) →
      findSub (submit_answer db fs now u q).1.subs u q = some (true, some t)) ∧
    (findSub db.subs u q = none →
      findSub (submit_answer db fs now u q).1.subs u q = some (true, some now)) ∧
    (∀ s : Bool, findSub db.subs u q = some (s, none) →
      findSub (submit_answer db fs now u q).1.subs u q = some (true, some now)) ∧
    findSub (mark_submission_verified db now u q).subs u q
      = some (true, some (mark_start_ts db now u q)) ∧
    (∀ (s : Bool) (t : ℚ), findSub db.subs u q = some (s, some t) → t ≠ 0 →
      mark_start_ts db now u q = t) ∧
    (findSub db.subs u q = none → ∀ ts : ℚ, findSession db.sessions u = some ts →
      ts ≠ 0 → mark_start_ts db now u q = ts) ∧
    (findSub db.subs u q = none → findSession db.sessions u = none →
      mark_start_ts db now u q = now) ∧
    (∀ fs2 : FS,
      findSub ((submit_answer (submit_answer db fs now u q).1 fs2 now2 u q).1).subs u q
        = findSub (submit_answer db fs now u q).1.subs u q) ∧
    (now ≠ 0 →
      findSub (mark_submission_verified (mark_submission_verified db now u q)
          now2 u q).subs u q
        = findSub (mark_submission_verified db now u q).subs u q) := by
  refine ⟨?_, ?_, ?_, ?_, ?_, ?_, ?_, ?_, ?_, ?_, ?_⟩
  · simp [has_submitted, submit_answer, findSub_replaceSub]
  · simp [has_submitted, mark_submission_verified, findSub_replaceSub]
  · intro s t h
    simp [submit_answer, findSub_replaceSub, h]
  · intro h
    simp [submit_answer, findSub_replaceSub, h]
  · intro s h
    simp [submit_answer, findSub_replaceSub, h]
  · simp [mark_submission_verified, findSub_replaceSub]
  · intro s t h ht
    simp [mark_start_ts, h, ht]
  · intro h ts hs hts
    simp [mark_start_ts, session_fallback, h, hs, hts]
  · intro h hs
    simp [mark_start_ts, session_fallback, h, hs]
  · intro fs2
    obtain ⟨x, hx⟩ := findSub_submit db fs now u q
    have hdir : findSub (submit_answer db fs now u q).1.subs u q
        = some (true, some (match findSub db.subs u q with
            | some (_, some t) => t
            | _ => now)) := by
      cases hd : findSub db.subs u q with
      | none => simp [submit_answer, findSub_replaceSub, hd]
      | some p =>
        obtain ⟨s, t⟩ := p
        cases t <;> simp [submit_answer, findSub_replaceSub, hd]
    have hx2 : (match findSub db.subs u q with
        | some (_, some t) => t
        | _ => now) = x := by
      rw [hx] at hdir
      simpa using hdir.symm
    have h2 : findSub ((submit_answer (submit_answer db fs now u q).1 fs2
        now2 u q).1).subs u q = some (true, some x) := by
      simp only [submit_answer, findSub_replaceSub, hx]
      simp [hx2]
    rw [h2, hx]
  · intro h
    have hgen : ∀ (d : DB) (n : ℚ),
        findSub (mark_submission_verified d n u q).subs u q
          = some (true, some (mark_start_ts d n u q)) := fun d n => by
      simp [mark_submission_verified, findSub_replaceSub]
    have h2 : mark_start_ts (mark_submission_verified db now u q) now2 u q
        = mark_start_ts db now u q :=
      mark_start_ts_existing (hgen db now) (mark_start_ts_ne_zero db now u q h)
    rw [hgen (mark_submission_verified db now u q) now2, hgen db now, h2]

/-- C2 witness: on the empty database, submitting records the flag and the
current time as the start time. -/
theorem submission_upsert_amended_witness :
    findSub ((submit_answer emptyDB ⟨fun _ => false, fun _ _ => false⟩ 7
        "alice" "question1").1).subs "alice" "question1" = some (true, some 7) :=
  (submission_upsert_amended emptyDB ⟨fun _ => false, fun _ _ => false⟩ 7 8
    "alice" "question1").2.2.2.1 rfl

/-! ### Metrics-table lemmas and the debounce claim. -/

lemma findMetric_updMetrics (ms : List MetricRow) (u u2 : String)
    (f : Int × ℚ → Int × ℚ) :
    findMetric (updMetrics ms u f) u2 =
      if u = u2 then (findMetric ms u2).map f else findMetric ms u2 := by
  induction ms with
  | nil => by_cases h2 : u = u2 <;> simp [updMetrics, findMetric, h2]
  | cons r rest ih =>
    by_cases hr : r.username = u <;> by_cases h2 : u = u2
    · have hr2 : r.username = u2 := by rw [hr, h2]
      simp [updMetrics, findMetric, hr, hr2, h2]
    · have hr2 : ¬r.username = u2 := by rw [hr]; exact h2
      have h2s : ¬u2 = u := fun hh => h2 hh.symm
      simpa [updMetrics, findMetric, hr, hr2, h2, h2s] using ih
    · have hr2 : ¬r.username = u2 := by rw [← h2]; exact hr
      have hrs : ¬u = r.username := fun hh => hr hh.symm
      simpa [updMetrics, findMetric, hr, hrs, hr2, h2] using ih
    · have h2s : ¬u2 = u := fun hh => h2 hh.symm
      have hrs : ¬u = r.username := fun hh => hr hh.symm
      by_cases hr2 : r.username = u2
      · simp [updMetrics, findMetric, hr, hrs, hr2, h2, h2s]
      · simpa [updMetrics, findMetric, hr, hrs, hr2, h2, h2s] using ih

lemma findMetric_append (ms : List MetricRow) (r : MetricRow) (u2 : String) :
    findMetric (ms ++ [r]) u2 =
      match findMetric ms u2 with
      | some p => some p
      | none =>
        if r.username = u2 then some (r.leave_count, r.last_leave_ts) else none := by
  induction ms with
  | nil => simp [findMetric]
  | cons r0 rest ih => by_cases h : r0.username = u2 <;> simp [findMetric, h, ih]

lemma inc_metrics_eq (db : DB) (now : ℚ) (u : String) :
    findMetric (increment_leave_count db now u).metrics u =
      some ((if 3 ≤ now - readLastTs db u then readCount db u + 1
             else readCount db u), now) := by
  unfold increment_leave_count readLastTs readCount
  cases hm : findMetric db.metrics u with
  | none =>
    have h1 : findMetric (db.metrics ++ [⟨u, 0, 0⟩]) u = some (0, 0) := by
      rw [findMetric_append, hm]
      simp
    by_cases hc : (3 : ℚ) ≤ now <;>
      simp [hm, h1, hc, findMetric_updMetrics]
  | some p =>
    obtain ⟨c, t⟩ := p
    by_cases hc : 3 ≤ now - t <;>
      simp [hm, hc, findMetric_updMetrics]

/-- C5: `increment_leave_count` creates the row when missing, always stamps
`last_leave_ts = now`, counts only when at least 3 seconds passed since the
stored last leave, so a second call within 3 seconds adds nothing and calls
3 or more seconds apart each add 1. -/
theorem increment_leave_count_debounce (db : DB) (now now2 : ℚ) (u : String) :
    readLastTs (increment_leave_count db now u) u = now ∧
    (3 ≤ now - readLastTs db u →
      readCount (increment_leave_count db now u) u = readCount db u + 1) ∧
    (now - readLastTs db u < 3 →
      readCount (increment_leave_count db now u) u = readCount db u) ∧
    (findMetric db.metrics u = none →
      findMetric (increment_leave_count db now u).metrics u ≠ none) ∧
    (now2 - now < 3 →
      readCount (increment_leave_count (increment_leave_count db now u) now2 u) u =
        readCount (increment_leave_count db now u) u) ∧
    (3 ≤ now - readLastTs db u → now2 - now < 3 →
      readCount (increment_leave_count (increment_leave_count db now u) now2 u) u =
        readCount db u + 1) ∧
    (3 ≤ now2 - now →
      readCount (increment_leave_count (increment_leave_count db now u) now2 u) u =
        readCount (increment_leave_count db now u) u + 1) := by
  have master := inc_metrics_eq db now u
  have master2 := inc_metrics_eq (increment_leave_count db now u) now2 u
  have hlast : readLastTs (increment_leave_count db now u) u = now := by
    simp only [readLastTs]
    rw [master]
    rfl
  have hcount : readCount (increment_leave_count db now u) u
      = if 3 ≤ now - readLastTs db u then readCount db u + 1
        else readCount db u := by
    simp only [readCount]
    rw [master]
    rfl
  have hcount2 : readCount (increment_leave_count (increment_leave_count db now u)
        now2 u) u
      = if 3 ≤ now2 - now then readCount (increment_leave_count db now u) u + 1
        else readCount (increment_leave_count db now u) u := by
    simp only [readCount]
    rw [master2, hlast]
    rfl
  refine ⟨hlast, fun h => ?_, fun h => ?_, fun h => ?_, fun h => ?_,
    fun h1 h2 => ?_, fun h => ?_⟩
  · rw [hcount, if_pos h]
  · rw [hcount, if_neg (not_le.mpr h)]
  · rw [master]
    simp
  · rw [hcount2, if_neg (not_le.mpr h)]
  · rw [hcount2, if_neg (not_le.mpr h2), hcount, if_pos h1]
  · rw [hcount2, if_pos h]

/-- C5 witness: on a fresh database, a first leave at time 10, a second at
time 11 (within 3 seconds) leave the count at 1. -/
theorem increment_leave_count_debounce_witness :
    readCount (increment_leave_count (increment_leave_count emptyDB 10 "alice")
      11 "alice") "alice" = readCount emptyDB "alice" + 1 :=
  (increment_leave_count_debounce emptyDB 10 11 "alice").2.2.2.2.2.1
    (by norm_num [readLastTs, findMetric, emptyDB]) (by norm_num)

/-! ### The answer-verification claim. -/

lemma checkAnswerLines_eq (lines : List String) (key : String) :
    (findAnswerLine lines = none → checkAnswerLines lines key = false) ∧
    (∀ e, findAnswerLine lines = some e →
      (checkAnswerLines lines key = true ↔
        pyLower (pyStrip e) = pyLower (pyStrip key))) := by
  induction lines with
  | nil =>
    exact ⟨fun _ => rfl, fun e he => by simp [findAnswerLine] at he⟩
  | cons line rest ih =>
    by_cases hl : isAnswerLine line = true
    · refine ⟨fun hn => ?_, fun e he => ?_⟩
      · simp [findAnswerLine, hl] at hn
      · have he2 : afterFirstColon line = e := by
          simpa [findAnswerLine, hl] using he
        simp [checkAnswerLines, hl, he2]
    · refine ⟨fun hn => ?_, fun e he => ?_⟩
      · have h1 := ih.1 (by simpa [findAnswerLine, hl] using hn)
        simpa [checkAnswerLines, hl] using h1
      · have h1 := ih.2 e (by simpa [findAnswerLine, hl] using he)
        simpa [checkAnswerLines, hl] using h1

/-- C8: `verify_key` returns false when no expected answer is registered,
and otherwise succeeds exactly when the candidate equals the registered
answer after trimming whitespace and lowering case on both sides. -/
theorem verify_key_spec (qs : String → Option String) (qname key : String) :
    (registeredAnswer qs qname = none → verify_key qs qname key = false) ∧
    (∀ e, registeredAnswer qs qname = some e →
      (verify_key qs qname key = true ↔
        pyLower (pyStrip e) = pyLower (pyStrip key))) := by
  cases hq : qs qname with
  | none =>
    have hv : verify_key qs qname key = false := by
      simp [verify_key, get_question_text, hq]
    have hr : registeredAnswer qs qname = none := by
      simp [registeredAnswer, get_question_text, hq]
    refine ⟨fun _ => hv, fun e he => ?_⟩
    rw [hr] at he
    exact absurd he (by simp)
  | some text =>
    by_cases ht : text = ""
    · have hv : verify_key qs qname key = false := by
        simp [verify_key, get_question_text, hq, ht]
      have hr : registeredAnswer qs qname = none := by
        simp [registeredAnswer, get_question_text, hq, ht]
      refine ⟨fun _ => hv, fun e he => ?_⟩
      rw [hr] at he
      exact absurd he (by simp)
    · have hv : verify_key qs qname key
          = checkAnswerLines (pySplitlines text) key := by
        simp [verify_key, get_question_text, hq, ht]
      have hr : registeredAnswer qs qname
          = findAnswerLine (pySplitlines text) := by
        simp [registeredAnswer, get_question_text, hq, ht]
      refine ⟨fun hn => ?_, fun e he => ?_⟩
      · rw [hr] at hn
        rw [hv]
        exact (checkAnswerLines_eq _ key).1 hn
      · rw [hr] at he
        rw [hv]
        exact (checkAnswerLines_eq _ key).2 e he

/-- C8 witness: a key with extra spaces and different case matches the
registered answer `paris`. -/
theorem verify_key_spec_witness :
    verify_key
      (fun q => if q = "question1" then some "Geography.\nAnswer: paris\n" else none)
      "question1" " Paris " = true :=
  ((verify_key_spec
      (fun q => if q = "question1" then some "Geography.\nAnswer: paris\n" else none)
      "question1" " Paris ").2 " paris" (by decide)).mpr (by decide)

/-! ### Dictionary lemmas for the reporting view. -/

lemma dictGet_mapUpdate {α : Type} (d : List (String × α)) (k k2 : String) (v : α) :
    dictGet (d.map (fun p => if p.1 = k then (k, v) else p)) k2 =
      if k2 = k then (if (dictGet d k).isSome then some v else none)
      else dictGet d k2 := by
  induction d with
  | nil => by_cases h : k2 = k <;> simp [dictGet, h]
  | cons p rest ih =>
    by_cases hp : p.1 = k <;> by_cases h2 : k2 = k
    · have hp2 : p.1 = k2 := by rw [hp, h2]
      simp [dictGet, hp, hp2, h2]
    · have hne : ¬k = k2 := fun hh => h2 hh.symm
      have hp2 : ¬p.1 = k2 := by rw [hp]; exact hne
      simpa [dictGet, hp, hp2, hne, h2] using ih
    · have hp2 : ¬p.1 = k2 := by rw [h2]; exact hp
      have hps : ¬k = p.1 := fun hh => hp hh.symm
      simpa [dictGet, hp, hps, hp2, h2] using ih
    · have hps : ¬k = p.1 := fun hh => hp hh.symm
      by_cases hp2 : p.1 = k2
      · simp [dictGet, hp, hps, hp2, h2]
      · simpa [dictGet, hp, hps, hp2, h2] using ih

lemma dictGet_append {α : Type} (d l : List (String × α)) (k : String) :
    dictGet (d ++ l) k =
      match dictGet d k with
      | some x => some x
      | none => dictGet l k := by
  induction d with
  | nil => simp [dictGet]
  | cons p rest ih => by_cases hp : p.1 = k <;> simp [dictGet, hp, ih]

lemma any_eq_isSome {α : Type} (d : List (String × α)) (k : String) :
    (d.any fun p => p.1 = k) = (dictGet d k).isSome := by
  induction d with
  | nil => simp [dictGet]
  | cons p rest ih => by_cases hp : p.1 = k <;> simp [dictGet, hp, ih]

lemma dictGet_dictInsert {α : Type} (d : List (String × α)) (k k2 : String) (v : α) :
    dictGet (dictInsert k v d) k2 = if k2 = k then some v else dictGet d k2 := by
  unfold dictInsert
  by_cases h : (d.any fun p => p.1 = k) = true
  · rw [if_pos h, dictGet_mapUpdate]
    rw [any_eq_isSome] at h
    by_cases h2 : k2 = k <;> simp [h2, h]
  · rw [if_neg h, dictGet_append]
    rw [any_eq_isSome] at h
    have hnone : dictGet d k = none := by
      cases hg : dictGet d k
      · rfl
      · rw [hg] at h; simp at h
    by_cases h2 : k2 = k
    · subst h2
      rw [hnone, if_pos rfl]
      simp [dictGet]
    · rw [if_neg h2]
      cases hg : dictGet d k2 with
      | some x => rfl
      | none =>
        have hk : ¬k = k2 := fun hh => h2 hh.symm
        simp [dictGet, hk]

lemma dictGet_updInner {α : Type} (d : List (String × α)) (u u2 : String)
    (f : α → α) :
    dictGet (updInner u f d) u2 =
      if u2 = u then (dictGet d u2).map f else dictGet d u2 := by
  induction d with
  | nil => by_cases h : u2 = u <;> simp [updInner, dictGet, h]
  | cons p rest ih =>
    by_cases hp : p.1 = u <;> by_cases h2 : u2 = u
    · have hp2 : p.1 = u2 := by rw [hp, h2]
      simp [updInner, dictGet, hp, hp2, h2]
    · have hp2 : ¬p.1 = u2 := by rw [hp]; exact fun hh => h2 hh.symm
      have hu2 : ¬u = u2 := fun hh => h2 hh.symm
      simpa [updInner, dictGet, hp, hp2, hu2, h2] using ih
    · have hp2 : ¬p.1 = u2 := by rw [h2]; exact hp
      simpa [updInner, dictGet, hp, hp2, h2] using ih
    · by_cases hp2 : p.1 = u2
      · simp [updInner, dictGet, hp, hp2, h2]
      · simpa [updInner, dictGet, hp, hp2, h2] using ih

lemma dictGet_mapVal {α : Type} (g : String → α → α) (d : List (String × α))
    (k : String) :
    dictGet (d.map (fun p => (p.1, g p.1 p.2))) k = (dictGet d k).map (g k) := by
  induction d with
  | nil => simp [dictGet]
  | cons p rest ih =>
    by_cases hp : p.1 = k
    · simp [dictGet, hp]
    · simp [dictGet, hp, ih]

lemma dictGet_mapFalse (l : List String) (k : String) :
    dictGet (l.map (fun q => (q, false))) k = if k ∈ l then some false else none := by
  induction l with
  | nil => simp [dictGet]
  | cons a rest ih =>
    by_cases h : a = k
    · simp [dictGet, h, List.mem_cons]
    · have h2 : ¬k = a := fun hh => h hh.symm
      simp [dictGet, h, h2, List.mem_cons, ih]

lemma dictGet_defaultInner (q : String) :
    dictGet defaultInner q = if q ∈ questions then some false else none :=
  dictGet_mapFalse questions q

/-! ### The four passes of `get_all_submissions`, read back through
`dictGet`. -/

lemma dictGet_seedRoster (students : List String) (u : String) :
    ∀ r : List (String × List (String × Bool)),
      dictGet (seedRoster students r) u =
        if u ∈ students then some defaultInner else dictGet r u := by
  induction students with
  | nil => intro r; simp [seedRoster]
  | cons s rest ih =>
    intro r
    show dictGet (seedRoster rest (dictInsert s defaultInner r)) u = _
    rw [ih]
    by_cases hu : u ∈ rest
    · simp [hu, List.mem_cons]
    · rw [if_neg hu, dictGet_dictInsert]
      by_cases hus : u = s
      · simp [hus, List.mem_cons]
      · have hn : u ∉ s :: rest := by simp [List.mem_cons, hus, hu]
        simp [hus, hn]

lemma dictGet_addDbUsers (rows : List SubRow) (u : String) :
    ∀ r : List (String × List (String × Bool)),
      dictGet (addDbUsers rows r) u =
        if (dictGet r u).isSome then dictGet r u
        else if u ∈ rows.map (fun row => row.username) then some defaultInner
        else none := by
  induction rows with
  | nil =>
    intro r
    cases hg : dictGet r u <;> simp [addDbUsers, hg]
  | cons row rest ih =>
    intro r
    show dictGet (addDbUsers rest (if (dictGet r row.username).isSome then r
        else dictInsert row.username defaultInner r)) u = _
    by_cases hrow : (dictGet r row.username).isSome
    · rw [if_pos hrow, ih]
      by_cases hu : (dictGet r u).isSome
      · simp [hu]
      · have hne : ¬u = row.username := fun hh => hu (hh ▸ hrow)
        simp [hu, hne, List.mem_cons]
    · rw [if_neg hrow, ih]
      by_cases hu2 : u = row.username
      · have hnone : dictGet r u = none := by
          rw [hu2]
          exact Option.not_isSome_iff_eq_none.mp hrow
        simp [dictGet_dictInsert, hu2, hnone, hrow, List.mem_cons]
      · simp [dictGet_dictInsert, hu2, List.mem_cons]

/-- The per-user effect of the flag-overlay loop on one inner dict. -/
def flagFold (u : String) (rows : List SubRow) (d : List (String × Bool)) :
    List (String × Bool) :=
  rows.foldl (fun d row =>
    if row.username = u then dictInsert row.question row.submitted d else d) d

lemma dictGet_applyFlags (rows : List SubRow) (u : String) :
    ∀ r : List (String × List (String × Bool)),
      dictGet (applyFlags rows r) u = (dictGet r u).map (flagFold u rows) := by
  induction rows with
  | nil =>
    intro r
    cases hg : dictGet r u <;> simp [applyFlags, flagFold, hg]
  | cons row rest ih =>
    intro r
    show dictGet (applyFlags rest
        (updInner row.username (dictInsert row.question row.submitted) r)) u = _
    rw [ih, dictGet_updInner]
    by_cases hu : u = row.username
    · rw [if_pos hu]
      cases hg : dictGet r u <;> simp [flagFold, hu, hg]
    · rw [if_neg hu]
      have hus : ¬row.username = u := fun hh => hu hh.symm
      cases hg : dictGet r u <;> simp [flagFold, hus, hg]

lemma findSub_eq_none {subs : List SubRow} {u q : String}
    (h : (u, q) ∉ subs.map (fun r => (r.username, r.question))) :
    findSub subs u q = none := by
  induction subs with
  | nil => rfl
  | cons r rest ih =>
    simp only [List.map_cons, List.mem_cons] at h
    push_neg at h
    have hr : ¬(r.username = u ∧ r.question = q) := by
      rintro ⟨h1, h2⟩
      exact h.1 (by rw [h1, h2])
    rw [findSub, if_neg hr]
    exact ih h.2

lemma dictGet_flagFold (rows : List SubRow) (u q : String) :
    ∀ d : List (String × Bool), SubsNodup rows →
      dictGet (flagFold u rows d) q =
        match findSub rows u q with
        | some p => some p.1
        | none => dictGet d q := by
  induction rows with
  | nil => intro d _; simp [flagFold, findSub]
  | cons row rest ih =>
    intro d hnd
    rw [SubsNodup, List.map_cons, List.nodup_cons] at hnd
    have step : flagFold u (row :: rest) d
        = flagFold u rest
            (if row.username = u then dictInsert row.question row.submitted d
             else d) := rfl
    rw [step]
    by_cases hru : row.username = u
    · by_cases hrq : row.question = q
      · have hcond : row.username = u ∧ row.question = q := ⟨hru, hrq⟩
        have hrest : findSub rest u q =
            none := findSub_eq_none (by rw [← hru, ← hrq]; exact hnd.1)
        rw [if_pos hru, ih _ hnd.2, hrest]
        simp only [findSub]
        rw [if_pos hcond, dictGet_dictInsert, if_pos hrq.symm]
      · have hcond : ¬(row.username = u ∧ row.question = q) := fun hh => hrq hh.2
        rw [if_pos hru, ih _ hnd.2]
        simp only [findSub]
        rw [if_neg hcond]
        cases hf : findSub rest u q with
        | some p => rfl
        | none =>
          rw [dictGet_dictInsert, if_neg (fun hh => hrq hh.symm)]
    · have hcond : ¬(row.username = u ∧ row.question = q) := fun hh => hru hh.1
      rw [if_neg hru, ih _ hnd.2]
      simp only [findSub]
      rw [if_neg hcond]

lemma dictGet_fileFold (fs : FS) (u q : String) (qlist : List String) :
    ∀ d : List (String × Bool),
      dictGet (qlist.foldl (fun d q2 =>
          if fs.fileExists u q2 then dictInsert q2 true d else d) d) q =
        if q ∈ qlist ∧ fs.fileExists u q = true then some true
        else dictGet d q := by
  induction qlist with
  | nil => intro d; simp
  | cons q0 rest ih =>
    intro d
    rw [List.foldl_cons, ih]
    by_cases hq0 : q ∈ rest ∧ fs.fileExists u q = true
    · rw [if_pos hq0, if_pos ⟨List.mem_cons_of_mem _ hq0.1, hq0.2⟩]
    · rw [if_neg hq0]
      by_cases hq : q = q0
      · subst hq
        by_cases hf : fs.fileExists u q = true
        · rw [if_pos hf, dictGet_dictInsert, if_pos rfl,
            if_pos ⟨List.mem_cons_self _ _, hf⟩]
        · rw [if_neg hf, if_neg (fun hh => hf hh.2)]
      · have hm : ¬(q ∈ q0 :: rest ∧ fs.fileExists u q = true) := by
          rintro ⟨hmem, hfe⟩
          rcases List.mem_cons.mp hmem with h | h
          · exact hq h
          · exact hq0 ⟨h, hfe⟩
        by_cases hf0 : fs.fileExists u q0 = true
        · rw [if_pos hf0, dictGet_dictInsert, if_neg hq, if_neg hm]
        · rw [if_neg hf0, if_neg hm]

lemma dictGet_fileOverlayInner (fs : FS) (u q : String)
    (d : List (String × Bool)) :
    dictGet (fileOverlayInner fs u d) q =
      if fs.dirExists u = true ∧ q ∈ questions ∧ fs.fileExists u q = true
      then some true else dictGet d q := by
  unfold fileOverlayInner
  by_cases hd : fs.dirExists u = true
  · rw [if_pos hd, dictGet_fileFold]
    by_cases hqf : q ∈ questions ∧ fs.fileExists u q = true
    · rw [if_pos hqf, if_pos ⟨hd, hqf.1, hqf.2⟩]
    · rw [if_neg hqf, if_neg (fun hh => hqf ⟨hh.2.1, hh.2.2⟩)]
  · rw [if_neg hd, if_neg (fun hh => hd hh.1)]

lemma dictGet_applyFiles (fs : FS) (r : List (String × List (String × Bool)))
    (u : String) :
    dictGet (applyFiles fs r) u = (dictGet r u).map (fileOverlayInner fs u) := by
  unfold applyFiles
  exact dictGet_mapVal (fun k d => fileOverlayInner fs k d) r u

/-- The inner dict `get_all_submissions` ends up holding for a present
user. -/
def userView (db : DB) (fs : FS) (u : String) : List (String × Bool) :=
  fileOverlayInner fs u (flagFold u db.subs defaultInner)

lemma dictGet_gas (db : DB) (fs : FS) (students : List String) (u : String) :
    dictGet (get_all_submissions db fs students) u =
      if u ∈ students ∨ u ∈ db.subs.map (fun r => r.username)
      then some (userView db fs u) else none := by
  unfold get_all_submissions
  rw [dictGet_applyFiles, dictGet_applyFlags, dictGet_addDbUsers,
    dictGet_seedRoster]
  by_cases hs : u ∈ students
  · simp [hs, userView]
  · rw [if_neg hs]
    by_cases hm : u ∈ db.subs.map (fun r => r.username)
    · simp [hs, hm, userView, dictGet]
    · simp [hs, hm, dictGet]

/-- C6, counterexample: with an empty store and a roster of alice, a
`question1.py` file in alice's submissions directory makes the report show
`question1 = true`, so the report is not all-false on an empty store and
truth is not exactly the stored flags. -/
theorem get_all_submissions_file_counterexample :
    (⟨[], [], []⟩ : DB).subs = [] ∧
    dictGet (get_all_submissions ⟨[], [], []⟩
        ⟨fun d => d == "alice", fun d f => d == "alice" && f == "question1"⟩
        ["alice"]) "alice"
      = some [("question1", true), ("question2", false), ("question3", false),
              ("question4", false), ("question5", false)] :=
  ⟨rfl, by decide⟩

/-- C6, amended: the report contains every roster username and every store
username; a pair reads `true` exactly when the store has a submitted row for
it or a submission file for a known question exists in the user's existing
directory; with an empty store and no file signal, roster users read
`false` on every known question. -/
theorem get_all_submissions_amended (db : DB) (fs : FS) (students : List String)
    (u q : String) (hnd : SubsNodup db.subs) :
    (u ∈ students → (dictGet (get_all_submissions db fs students) u).isSome) ∧
    (u ∈ db.subs.map (fun r => r.username) →
      (dictGet (get_all_submissions db fs students) u).isSome) ∧
    (∀ d, dictGet (get_all_submissions db fs students) u = some d →
      (dictGet d q = some true ↔
        ((∃ t, (⟨u, q, true, t⟩ : SubRow) ∈ db.subs) ∨
          (q ∈ questions ∧ fs.dirExists u = true ∧ fs.fileExists u q = true)))) ∧
    (db.subs = [] → (fs.dirExists u = false ∨ fs.fileExists u q = false) →
      u ∈ students → q ∈ questions →
      ∀ d, dictGet (get_all_submissions db fs students) u = some d →
        dictGet d q = some false) := by
  refine ⟨fun hs => ?_, fun hm => ?_, fun d hd => ?_,
    fun hemp hnf hs hq d hd => ?_⟩
  · rw [dictGet_gas, if_pos (Or.inl hs)]; rfl
  · rw [dictGet_gas, if_pos (Or.inr hm)]; rfl
  · rw [dictGet_gas] at hd
    have hdval : d = userView db fs u := by
      by_cases hc : u ∈ students ∨ u ∈ db.subs.map (fun r => r.username)
      · rw [if_pos hc] at hd
        exact (Option.some.inj hd).symm
      · rw [if_neg hc] at hd
        exact absurd hd (by simp)
    subst hdval
    unfold userView
    rw [dictGet_fileOverlayInner]
    by_cases hsig : fs.dirExists u = true ∧ q ∈ questions ∧ fs.fileExists u q = true
    · rw [if_pos hsig]
      exact ⟨fun _ => Or.inr ⟨hsig.2.1, hsig.1, hsig.2.2⟩, fun _ => rfl⟩
    · rw [if_neg hsig, dictGet_flagFold db.subs u q defaultInner hnd]
      have hnr : ¬(q ∈ questions ∧ fs.dirExists u = true ∧ fs.fileExists u q = true) :=
        fun hh => hsig ⟨hh.2.1, hh.1, hh.2.2⟩
      cases hf : findSub db.subs u q with
      | some p =>
        obtain ⟨s, t0⟩ := p
        cases s with
        | true => exact ⟨fun _ => Or.inl ⟨t0, findSub_mem hf⟩, fun _ => rfl⟩
        | false =>
          constructor
          · intro hh
            exact absurd (show (some false : Option Bool) = some true from hh)
              (by simp)
          · rintro (⟨t, hm2⟩ | hr)
            · rw [mem_findSub hnd hm2] at hf
              exact absurd hf (by simp)
            · exact absurd hr hnr
      | none =>
        constructor
        · intro hh
          have hh2 : dictGet defaultInner q = some true := hh
          rw [dictGet_defaultInner] at hh2
          by_cases hq : q ∈ questions
          · rw [if_pos hq] at hh2
            exact absurd hh2 (by simp)
          · rw [if_neg hq] at hh2
            exact absurd hh2 (by simp)
        · rintro (⟨t, hm2⟩ | hr)
          · rw [mem_findSub hnd hm2] at hf
            exact absurd hf (by simp)
          · exact absurd hr hnr
  · rw [dictGet_gas, if_pos (Or.inl hs)] at hd
    have hdval : d = userView db fs u := (Option.some.inj hd).symm
    subst hdval
    unfold userView
    rw [dictGet_fileOverlayInner]
    have hsig : ¬(fs.dirExists u = true ∧ q ∈ questions ∧
        fs.fileExists u q = true) := by
      rcases hnf with h | h
      · rintro ⟨h1, _, _⟩
        rw [h] at h1
        exact Bool.noConfusion h1
      · rintro ⟨_, _, h2⟩
        rw [h] at h2
        exact Bool.noConfusion h2
    rw [if_neg hsig, dictGet_flagFold db.subs u q defaultInner hnd]
    have hf : findSub db.subs u q = none := by rw [hemp]; rfl
    rw [hf]
    have hval : dictGet defaultInner q = some false := by
      rw [dictGet_defaultInner, if_pos hq]
    exact hval

/-- C6 witness: a store row for bob (absent from the roster) surfaces as
`question2 = true` in the report. -/
theorem get_all_submissions_amended_witness :
    dictGet [("question1", false), ("question2", true), ("question3", false),
      ("question4", false), ("question5", false)] "question2" = some true :=
  ((get_all_submissions_amended ⟨[⟨"bob", "question2", true, none⟩], [], []⟩
      ⟨fun _ => false, fun _ _ => false⟩ ["alice"] "bob" "question2"
      (by decide)).2.2.1 _ (by decide)).mpr (Or.inl ⟨none, by decide⟩)

/-- C10: whenever a `<question>.py` file exists in a present user's
submissions directory, the report shows `true` for that pair, regardless of
the stored flag. -/
theorem file_exists_forces_true (db : DB) (fs : FS) (students : List String)
    (u q : String) (hq : q ∈ questions) (hdir : fs.dirExists u = true)
    (hfile : fs.fileExists u q = true) :
    ∀ d, dictGet (get_all_submissions db fs students) u = some d →
      dictGet d q = some true := by
  intro d hd
  rw [dictGet_gas] at hd
  by_cases hc : u ∈ students ∨ u ∈ db.subs.map (fun r => r.username)
  · rw [if_pos hc] at hd
    obtain rfl : userView db fs u = d := Option.some.inj hd
    unfold userView
    rw [dictGet_fileOverlayInner, if_pos ⟨hdir, hq, hfile⟩]
  · rw [if_neg hc] at hd
    exact absurd hd (by simp)

/-- C10 witness: alice's stored flag for question1 is false, yet the file
on disk makes the report show true. -/
theorem file_exists_forces_true_witness :
    dictGet [("question1", true), ("question2", false), ("question3", false),
      ("question4", false), ("question5", false)] "question1" = some true :=
  file_exists_forces_true ⟨[⟨"alice", "question1", false, some 1⟩], [], []⟩
    ⟨fun d => d == "alice", fun d f => d == "alice" && f == "question1"⟩
    ["alice"] "alice" "question1" (by decide) rfl rfl _ (by decide)
